import Mathlib

/-!
Verification development for the internet-use repository (rust).

Shallow embedding of the core components:
  - src/dom.rs        : element extraction label assignment (getLabel)
  - src/client.rs     : extract_elements_with_text labeling (getNextLetter),
                        wait_for_element, the browser operations used by jobs
  - src/jobs.rs       : BrowserJob, BrowserJob::run, run_all_jobs
  - src/types.rs      : MemoryEntry, MemoryEntry::new, AgentMemory
                        (add / to_json / from_json), MemoryOptions
  - src/memory.rs     : the second AgentMemory (record / from_json)
  - src/agent.rs      : infer_action, filter_elements, prompt_for_label,
                        decide_label

External effects (the WebDriver transport and the completion service) are
modelled as oracles: a browser is a record of operations acting on an
abstract world state W, and the completion service is a function from the
call index to the text the service returns (agent.rs ask already trims the
raw response, so the oracle value stands for the trimmed response text).
serde_json serialization is modelled at the level of JSON value trees: the
text rendering and parsing pair of serde_json is taken as inverse, and
to_json / from_json are embedded as the derived encoders and decoders on
that tree, field lookup being by name as serde does.
-/

namespace InternetUse

/-- Error enumeration of src/types.rs and src/client.rs (the union of both,
they agree except that only types.rs has MemoryError). -/
inductive BrowserError where
  | ConnectionError (msg : String)
  | OperationError (msg : String)
  | ConfigError (msg : String)
  | DomExtractionError (msg : String)
  | MemoryError (msg : String)
deriving DecidableEq

/-- Enum ElementType of src/dom.rs. -/
inductive ElementType where
  | Clickable
  | Typable
deriving DecidableEq

/-- Struct InteractiveElement of src/dom.rs. The attributes field holds an
arbitrary JSON object in the source; it is modelled as an association list. -/
structure InteractiveElement where
  tag : String
  element_type : ElementType
  selector : String
  text : Option String
  attributes : Option (List (String × String))
  label : Option String
deriving DecidableEq

/-- The getLabel routine of the page script in src/dom.rs
(extract_interactive_elements), fuel-indexed so that it evaluates by kernel
reduction.  The JS loop prepends the character for index mod 26 and then
replaces index by floor(index/26) - 1, stopping when index goes negative. -/
def labelCharsAux : Nat → Nat → List Char
  | 0, _ => []
  | fuel + 1, i =>
    let c := Char.ofNat (65 + i % 26)
    if i < 26 then [c] else labelCharsAux fuel (i / 26 - 1) ++ [c]

/-- Character sequence of the dom.rs label for enumeration index i. -/
def labelChars (i : Nat) : List Char := labelCharsAux (i + 1) i

/-- The dom.rs label (base-26 letter sequence A..Z, AA, AB, ...) assigned to
the element at enumeration index i. -/
def getLabel (i : Nat) : String := String.mk (labelChars i)

/-- Labels the dom.rs extractor assigns to a snapshot of n interactive
elements, in enumeration order. -/
def domLabels (n : Nat) : List String := (List.range n).map getLabel

/-- The getNextLetter routine of the page script in src/client.rs
(extract_elements_with_text): emits the letter for the current letterCode
(starting at 65) and advances it, wrapping back to 65 past 90 (Z). -/
def getNextLetter (letterCode : Nat) : String × Nat :=
  (String.mk [Char.ofNat letterCode],
   if 90 < letterCode + 1 then 65 else letterCode + 1)

/-- Labels the client.rs extract_elements_with_text script produces for n
interactive elements starting from letter state letterCode. -/
def clientLabels : Nat → Nat → List String
  | 0, _ => []
  | n + 1, letterCode =>
    (getNextLetter letterCode).1 :: clientLabels n (getNextLetter letterCode).2

/-- Numeric value of a label character sequence (inverse of labelChars);
a verification artifact used to prove the label assignment injective. -/
def labelVal (cs : List Char) : Int :=
  cs.foldl (fun a c => (a + 1) * 26 + ((c.toNat : Int) - 65)) (-1)

/-- ASCII lowercasing of one character, modelling Rust str::to_lowercase on
the ASCII tokens the classifier prompt constrains responses to. -/
def charLower (c : Char) : Char :=
  if 'A' ≤ c ∧ c ≤ 'Z' then Char.ofNat (c.toNat + 32) else c

/-- Rust str::to_lowercase (ASCII fragment), used by infer_action. -/
def strToLower (s : String) : String := String.mk (s.data.map charLower)

/-- Whitespace predicate of Rust str::trim. -/
def isWs (c : Char) : Bool :=
  c = ' ' || c = '\t' || c = '\n' || c = '\r'

/-- Character-list trimming: drop leading and trailing whitespace. -/
def trimChars (cs : List Char) : List Char :=
  (((cs.dropWhile isWs).reverse.dropWhile isWs).reverse)

/-- Rust str::trim, used on completion responses in prompt_for_label. -/
def strTrim (s : String) : String := String.mk (trimChars s.data)

/-- Enum BrowserJob of src/jobs.rs.  The source constructor named after the
typing action is a Rust keyword-styled variant Type with selector and text
fields; it is written TypeInto here, and the screenshot field named after
the file-name stem is written pfx. -/
inductive BrowserJob where
  | Navigate (url : String)
  | Click (selector : String)
  | TypeInto (selector : String) (text : String)
  | WaitFor (selector : String)
  | ScrollTo (selector : String)
  | Screenshot (pfx : String)
deriving DecidableEq

/-- Browser operations of src/client.rs consumed by BrowserJob::run,
modelled as oracles over an abstract world state W.  find_element is the
raw fantoccini wait().for_element call (the one wait_for_element wraps);
the element reference it yields is abstracted to Unit.  capture_screenshot
yields the written path. -/
structure BrowserClient (W : Type) where
  navigate : String → W → Except BrowserError Unit × W
  click_element : String → W → Except BrowserError Unit × W
  send_keys_to_element : String → String → W → Except BrowserError Unit × W
  find_element : String → W → Except BrowserError Unit × W
  scroll_to : String → W → Except BrowserError Unit × W
  capture_screenshot : String → W → Except BrowserError String × W

/-- BrowserClient::wait_for_element (src/client.rs lines 498-508): both the
found case and the timeout or failure case of the underlying wait are mapped
to Ok, carrying true respectively false. -/
def wait_for_element {W : Type} (c : BrowserClient W) (element : String)
    (w : W) : Except BrowserError Bool × W :=
  match c.find_element element w with
  | (Except.ok _, w') => (Except.ok true, w')
  | (Except.error _, w') => (Except.ok false, w')

/-- BrowserJob::run (src/jobs.rs lines 17-32): each variant maps to one
client operation; WaitFor discards the boolean of wait_for_element and
Screenshot discards the path of capture_screenshot. -/
def BrowserJob.run {W : Type} (job : BrowserJob) (c : BrowserClient W)
    (w : W) : Except BrowserError Unit × W :=
  match job with
  | BrowserJob.Navigate url => c.navigate url w
  | BrowserJob.Click selector => c.click_element selector w
  | BrowserJob.TypeInto selector text => c.send_keys_to_element selector text w
  | BrowserJob.WaitFor selector =>
    match wait_for_element c selector w with
    | (Except.ok _, w') => (Except.ok (), w')
    | (Except.error e, w') => (Except.error e, w')
  | BrowserJob.ScrollTo selector => c.scroll_to selector w
  | BrowserJob.Screenshot pfx =>
    match c.capture_screenshot pfx w with
    | (Except.ok _, w') => (Except.ok (), w')
    | (Except.error e, w') => (Except.error e, w')

/-- run_all_jobs (src/jobs.rs lines 35-46): run each job once, in list
order; the first failure returns that job's error at once, a batch with no
failure returns Ok. -/
def run_all_jobs {W : Type} (c : BrowserClient W) :
    List BrowserJob → W → Except BrowserError Unit × W
  | [], w => (Except.ok (), w)
  | job :: rest, w =>
    match job.run c w with
    | (Except.error e, w') => (Except.error e, w')
    | (Except.ok _, w') => run_all_jobs c rest w'

/-- Modelled from the spec: the per-job retry policy of spec section 4.4
(retry the same job up to the given total attempt count before treating it
as fatal), which src/jobs.rs does not implement.  Used to compare the
actual executor against the claimed one. -/
def run_job_with_retries {W : Type} (c : BrowserClient W) (job : BrowserJob) :
    Nat → W → Except BrowserError Unit × W
  | 0, w => (Except.error (BrowserError.OperationError "no attempts"), w)
  | n + 1, w =>
    match job.run c w with
    | (Except.ok _, w') => (Except.ok (), w')
    | (Except.error e, w') =>
      if n = 0 then (Except.error e, w') else run_job_with_retries c job n w'

/-- Modelled from the spec: the batch executor of spec section 4.4 with a
per-job total attempt budget; with budget 1 it should coincide with the
source run_all_jobs, with budget 3 it is the executor the spec describes. -/
def run_all_jobs_retry {W : Type} (c : BrowserClient W) (attempts : Nat) :
    List BrowserJob → W → Except BrowserError Unit × W
  | [], w => (Except.ok (), w)
  | job :: rest, w =>
    match run_job_with_retries c job attempts w with
    | (Except.error e, w') => (Except.error e, w')
    | (Except.ok _, w') => run_all_jobs_retry c attempts rest w'

/-- Lift a browser client to a world enriched with an extra component M the
browser operations do not touch.  This is faithful to src/client.rs, whose
BrowserClient holds no agent memory: no browser operation reads or writes
the memory store. -/
def liftClient {W M : Type} (c : BrowserClient W) : BrowserClient (W × M) where
  navigate := fun url wm =>
    ((c.navigate url wm.1).1, ((c.navigate url wm.1).2, wm.2))
  click_element := fun sel wm =>
    ((c.click_element sel wm.1).1, ((c.click_element sel wm.1).2, wm.2))
  send_keys_to_element := fun sel text wm =>
    ((c.send_keys_to_element sel text wm.1).1,
     ((c.send_keys_to_element sel text wm.1).2, wm.2))
  find_element := fun sel wm =>
    ((c.find_element sel wm.1).1, ((c.find_element sel wm.1).2, wm.2))
  scroll_to := fun sel wm =>
    ((c.scroll_to sel wm.1).1, ((c.scroll_to sel wm.1).2, wm.2))
  capture_screenshot := fun pfx wm =>
    ((c.capture_screenshot pfx wm.1).1, ((c.capture_screenshot pfx wm.1).2, wm.2))

/-- Struct MemoryOptions (identical in src/types.rs and src/memory.rs);
the default capacity is 50. -/
structure MemoryOptions where
  max_entries : Nat
deriving DecidableEq

namespace Types

/-- Struct MemoryEntry of src/types.rs. -/
structure MemoryEntry where
  timestamp : String
  page_url : Option String
  page_title : Option String
  dom_snapshot : Option String
  action : String
  selector : Option String
  job : BrowserJob
deriving DecidableEq

/-- MemoryEntry::new of src/types.rs (lines 130-152).  The timestamp is a
clock read in the source and is therefore a parameter here. -/
def MemoryEntry.new (job : BrowserJob) (page_url : Option String)
    (timestamp : String) : MemoryEntry :=
  let pair : String × Option String :=
    match job with
    | BrowserJob.Navigate url => ("Navigate", some url)
    | BrowserJob.Click sel => ("Click", some sel)
    | BrowserJob.TypeInto sel _ => ("Type", some sel)
    | BrowserJob.WaitFor sel => ("WaitFor", some sel)
    | BrowserJob.ScrollTo sel => ("ScrollTo", some sel)
    | BrowserJob.Screenshot pfx => ("Screenshot", some pfx)
  { timestamp := timestamp
    page_url := page_url
    page_title := none
    dom_snapshot := none
    action := pair.1
    selector := pair.2
    job := job }

/-- Struct AgentMemory of src/types.rs. -/
structure AgentMemory where
  history : List MemoryEntry
  options : MemoryOptions
deriving DecidableEq

/-- AgentMemory::add of src/types.rs (lines 179-184): if the current length
already reaches max_entries it first removes the oldest entry, then pushes.
Vec::remove(0) panics on an empty vector, which the embedding renders as
none (reachable exactly when max_entries = 0 and the history is empty). -/
def AgentMemory.add (m : AgentMemory) (entry : MemoryEntry) :
    Option AgentMemory :=
  if m.options.max_entries ≤ m.history.length then
    match m.history with
    | [] => none
    | _ :: rest => some { m with history := rest ++ [entry] }
  else some { m with history := m.history ++ [entry] }

/-- AgentMemory::last_n of src/types.rs: the n most recent entries,
most-recent-first. -/
def AgentMemory.last_n (m : AgentMemory) (n : Nat) : List MemoryEntry :=
  m.history.reverse.take n

end Types

/-- Modelled from the spec (section 4.5): append the entry, then evict the
oldest entry exactly when the length then exceeds the capacity.  Used to
compare both memory implementations against the claimed contract. -/
def insertThenEvict {α : Type} (cap : Nat) (hist : List α) (e : α) : List α :=
  let h := hist ++ [e]
  if cap < h.length then h.tail else h

namespace Mem

/-- Struct MemoryEntry of src/memory.rs. -/
structure MemoryEntry where
  selector : String
  action : String
  timestamp : String
  page_url : Option String
deriving DecidableEq

/-- Insertion into the visited_selectors set (HashSet::insert), modelled on
a duplicate-free list. -/
def insertSet (s : List String) (x : String) : List String :=
  if s.contains x then s else s ++ [x]

/-- Removal from the visited_selectors set (HashSet::remove). -/
def removeSet (s : List String) (x : String) : List String :=
  s.filter (fun y => y ≠ x)

/-- Struct AgentMemory of src/memory.rs. -/
structure AgentMemory where
  history : List MemoryEntry
  visited_selectors : List String
  options : MemoryOptions

/-- AgentMemory::record of src/memory.rs (lines 60-87): build the entry
(timestamp is a clock read, hence a parameter), insert its selector into
the visited set, push it, then if the length exceeds max_entries drop the
oldest entry (and its selector from the visited set).  The source returns
Ok(()) on every path. -/
def AgentMemory.record (m : AgentMemory) (selector action : String)
    (page_url : Option String) (timestamp : String) : AgentMemory :=
  let entry : MemoryEntry :=
    { selector := selector, action := action
      timestamp := timestamp, page_url := page_url }
  let visited := insertSet m.visited_selectors selector
  let hist := m.history ++ [entry]
  if m.options.max_entries < hist.length then
    match hist with
    | [] => { m with history := [], visited_selectors := visited }
    | oldest :: rest =>
      { history := rest
        visited_selectors := removeSet visited oldest.selector
        options := m.options }
  else { m with history := hist, visited_selectors := visited }

end Mem

/-- JSON value tree, the shape serde_json text serialization factors
through (no numeric fields occur in the serialized memory types). -/
inductive Json where
  | null
  | str (s : String)
  | obj (fields : List (String × Json))
  | arr (items : List Json)

/-- Field lookup by name in a JSON object, as serde matches struct fields
independently of their order. -/
def jGet : List (String × Json) → String → Option Json
  | [], _ => none
  | (k, v) :: rest, key => if k = key then some v else jGet rest key

/-- Decode a JSON string value. -/
def decodeStr : Json → Option String
  | Json.str s => some s
  | _ => none

/-- serde encoding of Option String: None is null, Some is the string. -/
def encodeOptStr : Option String → Json
  | none => Json.null
  | some s => Json.str s

/-- serde decoding of Option String. -/
def decodeOptStr : Json → Option (Option String)
  | Json.null => some none
  | Json.str s => some (some s)
  | _ => none

/-- serde encoding of BrowserJob (derived, externally tagged): an object
with the variant name as single key; struct variants nest an object. -/
def encodeJob : BrowserJob → Json
  | BrowserJob.Navigate url => Json.obj [("Navigate", Json.str url)]
  | BrowserJob.Click sel => Json.obj [("Click", Json.str sel)]
  | BrowserJob.TypeInto sel text =>
    Json.obj [("Type", Json.obj [("selector", Json.str sel), ("text", Json.str text)])]
  | BrowserJob.WaitFor sel => Json.obj [("WaitFor", Json.str sel)]
  | BrowserJob.ScrollTo sel => Json.obj [("ScrollTo", Json.str sel)]
  | BrowserJob.Screenshot pfx =>
    Json.obj [("Screenshot", Json.obj [("prefix", Json.str pfx)])]

/-- serde decoding of BrowserJob. -/
def decodeJob : Json → Option BrowserJob
  | Json.obj [(tag, v)] =>
    if tag = "Navigate" then (decodeStr v).map BrowserJob.Navigate
    else if tag = "Click" then (decodeStr v).map BrowserJob.Click
    else if tag = "Type" then
      match v with
      | Json.obj fs =>
        match jGet fs "selector", jGet fs "text" with
        | some (Json.str sel), some (Json.str text) =>
          some (BrowserJob.TypeInto sel text)
        | _, _ => none
      | _ => none
    else if tag = "WaitFor" then (decodeStr v).map BrowserJob.WaitFor
    else if tag = "ScrollTo" then (decodeStr v).map BrowserJob.ScrollTo
    else if tag = "Screenshot" then
      match v with
      | Json.obj fs =>
        match jGet fs "prefix" with
        | some (Json.str pfx) => some (BrowserJob.Screenshot pfx)
        | _ => none
      | _ => none
    else none
  | _ => none

namespace Types

/-- serde encoding of the src/types.rs MemoryEntry. -/
def encodeEntry (e : MemoryEntry) : Json :=
  Json.obj
    [("timestamp", Json.str e.timestamp),
     ("page_url", encodeOptStr e.page_url),
     ("page_title", encodeOptStr e.page_title),
     ("dom_snapshot", encodeOptStr e.dom_snapshot),
     ("action", Json.str e.action),
     ("selector", encodeOptStr e.selector),
     ("job", encodeJob e.job)]

/-- serde decoding of the src/types.rs MemoryEntry. -/
def decodeEntry (j : Json) : Option MemoryEntry :=
  match j with
  | Json.obj fs =>
    match jGet fs "timestamp", jGet fs "page_url", jGet fs "page_title",
        jGet fs "dom_snapshot", jGet fs "action", jGet fs "selector",
        jGet fs "job" with
    | some (Json.str ts), some pu, some pt, some ds, some (Json.str act),
        some sel, some jjob =>
      match decodeOptStr pu, decodeOptStr pt, decodeOptStr ds,
          decodeOptStr sel, decodeJob jjob with
      | some pu', some pt', some ds', some sel', some job' =>
        some { timestamp := ts, page_url := pu', page_title := pt'
               dom_snapshot := ds', action := act, selector := sel'
               job := job' }
      | _, _, _, _, _ => none
    | _, _, _, _, _, _, _ => none
  | _ => none

/-- Decode a list of entries from JSON values. -/
def decodeEntryList : List Json → Option (List MemoryEntry)
  | [] => some []
  | j :: rest =>
    match decodeEntry j, decodeEntryList rest with
    | some e, some es => some (e :: es)
    | _, _ => none

/-- serde decoding of Vec of MemoryEntry: a JSON array of entries. -/
def decodeEntries : Json → Option (List MemoryEntry)
  | Json.arr items => decodeEntryList items
  | _ => none

/-- serde encoding of Vec of MemoryEntry. -/
def encodeEntries (es : List MemoryEntry) : Json :=
  Json.arr (es.map encodeEntry)

/-- AgentMemory::to_json of src/types.rs (lines 202-205): serializes the
history vector only. -/
def AgentMemory.to_json (m : AgentMemory) : Json := encodeEntries m.history

/-- AgentMemory::from_json of src/types.rs (lines 207-214): parse the
history vector; on success the memory gets the parsed history unchanged
and default options (max_entries 50); the length is not validated. -/
def AgentMemory.from_json (j : Json) : Except BrowserError AgentMemory :=
  match decodeEntries j with
  | none => Except.error (BrowserError.MemoryError "invalid JSON")
  | some history => Except.ok { history := history, options := { max_entries := 50 } }

end Types

namespace Mem

/-- serde encoding of the src/memory.rs MemoryEntry. -/
def encodeEntry (e : MemoryEntry) : Json :=
  Json.obj
    [("selector", Json.str e.selector),
     ("action", Json.str e.action),
     ("timestamp", Json.str e.timestamp),
     ("page_url", encodeOptStr e.page_url)]

/-- serde decoding of the src/memory.rs MemoryEntry. -/
def decodeEntry (j : Json) : Option MemoryEntry :=
  match j with
  | Json.obj fs =>
    match jGet fs "selector", jGet fs "action", jGet fs "timestamp",
        jGet fs "page_url" with
    | some (Json.str sel), some (Json.str act), some (Json.str ts), some pu =>
      match decodeOptStr pu with
      | some pu' =>
        some { selector := sel, action := act, timestamp := ts, page_url := pu' }
      | none => none
    | _, _, _, _ => none
  | _ => none

/-- Decode a list of src/memory.rs entries. -/
def decodeEntryList : List Json → Option (List MemoryEntry)
  | [] => some []
  | j :: rest =>
    match decodeEntry j, decodeEntryList rest with
    | some e, some es => some (e :: es)
    | _, _ => none

/-- serde decoding of Vec of src/memory.rs MemoryEntry. -/
def decodeEntries : Json → Option (List MemoryEntry)
  | Json.arr items => decodeEntryList items
  | _ => none

/-- serde encoding of Vec of src/memory.rs MemoryEntry. -/
def encodeEntries (es : List MemoryEntry) : Json :=
  Json.arr (es.map encodeEntry)

/-- Visited-selector set rebuilt while loading, in entry order. -/
def visitedOf (es : List MemoryEntry) : List String :=
  es.foldl (fun vs e => insertSet vs e.selector) []

/-- AgentMemory::from_json of src/memory.rs (lines 112-123): parse the
entry vector, then push every entry (inserting its selector into the
visited set) into a fresh memory with the given options; no trimming. -/
def AgentMemory.from_json (j : Json) (options : MemoryOptions) :
    Except String AgentMemory :=
  match decodeEntries j with
  | none => Except.error "SerializationError"
  | some parsed =>
    Except.ok { history := parsed, visited_selectors := visitedOf parsed
                options := options }

end Mem

/-- Modelled from the spec (sections 4.4 and 4.5): the batch executor the
spec describes, which after every job success appends one MemoryEntry built
by MemoryEntry::new, through the insert-then-evict add.  src/jobs.rs has no
such memory threading; this definition is the claimed behavior, for
comparison.  The timestamp of every entry is the parameter ts. -/
def run_all_jobs_spec_mem {W : Type} (c : BrowserClient W) (ts : String) :
    List BrowserJob → W → Types.AgentMemory →
      (Except BrowserError Unit × W) × Types.AgentMemory
  | [], w, mem => ((Except.ok (), w), mem)
  | job :: rest, w, mem =>
    match job.run c w with
    | (Except.error e, w') => ((Except.error e, w'), mem)
    | (Except.ok _, w') =>
      run_all_jobs_spec_mem c ts rest w'
        { mem with
          history := insertThenEvict mem.options.max_entries mem.history
            (Types.MemoryEntry.new job none ts) }

/-- Debug rendering of ElementType, as the Rust derive(Debug) prints it. -/
def ElementType.debugStr : ElementType → String
  | ElementType.Clickable => "Clickable"
  | ElementType.Typable => "Typable"

/-- Failure message of prompt_for_label after the attempt budget is
exhausted (src/agent.rs lines 116-119); it names the attempt count. -/
def failMsg (attempts : Nat) : String :=
  "Agent failed to return a valid label after " ++ toString attempts
    ++ " attempts."

/-- Failure message of decide_label when the filtered candidate set is
empty (src/agent.rs lines 160-165). -/
def noElemMsg (action : ElementType) : String :=
  "No elements found matching inferred action: " ++ action.debugStr

/-- The label set of prompt_for_label: the keys of its label map, one per
candidate that carries a label (src/agent.rs lines 57-60). -/
def labelKeys (elements : List InteractiveElement) : List String :=
  elements.filterMap InteractiveElement.label

/-- Negotiation loop of prompt_for_label (src/agent.rs lines 76-114).  ask
is the completion-service oracle indexed by the overall call number (its
value is the response already trimmed by Agent::ask); k is the next call
number and remaining the attempts left of the budget maxAttempts.  The
response is trimmed again and checked for direct membership in the label
set; a hit returns immediately, a miss is logged and the loop continues; an
ask transport error propagates at once.  Returns the result together with
the next call number (so the calls consumed are the difference). -/
def promptGo (ask : Nat → Except String String) (valid : String → Bool)
    (maxAttempts : Nat) : Nat → Nat → Except String String × Nat
  | k, 0 => (Except.error (failMsg maxAttempts), k)
  | k, remaining + 1 =>
    match ask k with
    | Except.error e => (Except.error e, k + 1)
    | Except.ok response =>
      let label := strTrim response
      if valid label then (Except.ok label, k + 1)
      else promptGo ask valid maxAttempts (k + 1) remaining

/-- prompt_for_label of src/agent.rs: run the negotiation loop over the
label set of the supplied candidates, starting at call number k. -/
def prompt_for_label (maxAttempts : Nat) (ask : Nat → Except String String)
    (k : Nat) (elements : List InteractiveElement) :
    Except String String × Nat :=
  promptGo ask (fun l => (labelKeys elements).contains l) maxAttempts k
    maxAttempts

/-- infer_action of src/agent.rs (lines 122-139): one completion call; the
response is lowercased and compared against click and type; anything else
is the invalid-action error (the source misspells Invalid).  Returns the
result together with the next call number. -/
def infer_action (ask : Nat → Except String String) (k : Nat) :
    Except String ElementType × Nat :=
  match ask k with
  | Except.error e => (Except.error e, k + 1)
  | Except.ok response =>
    let lower := strToLower response
    (if lower = "click" then Except.ok ElementType.Clickable
     else if lower = "type" then Except.ok ElementType.Typable
     else Except.error ("Invaild action returned: " ++ lower), k + 1)

/-- filter_elements of src/agent.rs (lines 141-150): keep the elements
whose element_type equals the inferred action. -/
def filter_elements (elements : List InteractiveElement)
    (action : ElementType) : List InteractiveElement :=
  elements.filter (fun el => el.element_type = action)

/-- decide_label of src/agent.rs (lines 152-168): classify the instruction
(one completion call), filter the snapshot by the inferred action, fail if
the filtered set is empty, otherwise negotiate a label over it. -/
def decide_label (maxAttempts : Nat) (ask : Nat → Except String String)
    (elements : List InteractiveElement) : Except String String × Nat :=
  match infer_action ask 0 with
  | (Except.error e, k) => (Except.error e, k)
  | (Except.ok action, k) =>
    let filtered := filter_elements elements action
    if filtered.isEmpty then (Except.error (noElemMsg action), k)
    else prompt_for_label maxAttempts ask k filtered

/-!
Concrete fixtures used to evaluate the embedded operations at specific
inputs (witnesses and counterexamples).
-/

/-- A clickable candidate carrying label A. -/
def elementA : InteractiveElement :=
  { tag := "a", element_type := ElementType.Clickable, selector := "sel-a"
    text := some "Login", attributes := none, label := some "A" }

/-- A typable candidate carrying label B. -/
def elementT : InteractiveElement :=
  { tag := "input", element_type := ElementType.Typable, selector := "sel-t"
    text := none, attributes := none, label := some "B" }

/-- Completion oracle that always answers Q (never a valid label). -/
def askConstQ : Nat → Except String String := fun _ => Except.ok "Q"

/-- Completion oracle answering Z on the first call and A afterwards. -/
def askZThenA : Nat → Except String String :=
  fun k => if k = 0 then Except.ok "Z" else Except.ok "A"

/-- Completion oracle answering click on the first call and A afterwards. -/
def askClickThenA : Nat → Except String String :=
  fun k => if k = 0 then Except.ok "click" else Except.ok "A"

/-- A browser whose every operation succeeds and leaves the world alone. -/
def okClient : BrowserClient Unit where
  navigate := fun _ w => (Except.ok (), w)
  click_element := fun _ w => (Except.ok (), w)
  send_keys_to_element := fun _ _ w => (Except.ok (), w)
  find_element := fun _ w => (Except.ok (), w)
  scroll_to := fun _ w => (Except.ok (), w)
  capture_screenshot := fun _ w => (Except.ok "shot", w)

/-- A browser over a call-counting world whose click fails on the first
call and succeeds afterwards: a job that a retry would rescue. -/
def flakyClient : BrowserClient Nat where
  navigate := fun _ n => (Except.ok (), n)
  click_element := fun _ n =>
    (if n = 0 then Except.error (BrowserError.OperationError "boom")
     else Except.ok (), n + 1)
  send_keys_to_element := fun _ _ n => (Except.ok (), n)
  find_element := fun _ n => (Except.ok (), n)
  scroll_to := fun _ n => (Except.ok (), n)
  capture_screenshot := fun _ n => (Except.ok "shot", n)

/-- A concrete src/types.rs memory entry. -/
def entry0 : Types.MemoryEntry :=
  Types.MemoryEntry.new (BrowserJob.Navigate "https://a") none "t0"

/-- A concrete src/memory.rs memory entry. -/
def memEntry0 : Mem.MemoryEntry :=
  { selector := "sel", action := "Click", timestamp := "t0", page_url := none }

/-- Empty src/types.rs memory with capacity 0. -/
def memZero : Types.AgentMemory :=
  { history := [], options := { max_entries := 0 } }

/-- Empty src/types.rs memory with capacity 1. -/
def memOne : Types.AgentMemory :=
  { history := [], options := { max_entries := 1 } }

/-- Empty src/types.rs memory with the default capacity 50. -/
def mem50 : Types.AgentMemory :=
  { history := [], options := { max_entries := 50 } }

/-!
Lemmas about the label assignment of the dom.rs extractor.
-/

/-- Valid code points below the surrogate range round-trip through
Char.ofNat. -/
theorem charOfNat_toNat (n : Nat) (h : n < 55296) : (Char.ofNat n).toNat = n := by
  unfold Char.ofNat
  split
  · rfl
  · exact absurd (Or.inl h) (by assumption)

/-- Appending one character multiplies the label value out by one base-26
bijective digit. -/
theorem labelVal_append (xs : List Char) (c : Char) :
    labelVal (xs ++ [c]) = (labelVal xs + 1) * 26 + ((c.toNat : Int) - 65) := by
  simp [labelVal, List.foldl_append]

/-- The label value decodes the label character sequence back to the
enumeration index, for any sufficient fuel. -/
theorem labelVal_labelCharsAux :
    ∀ i f, i < f → labelVal (labelCharsAux f i) = (i : Int) := by
  intro i
  induction i using Nat.strong_induction_on with
  | _ i ih =>
    intro f hf
    match f, hf with
    | f + 1, _ =>
      by_cases hi : i < 26
      · simp only [labelCharsAux, if_pos hi, labelVal, List.foldl]
        rw [charOfNat_toNat _ (by omega)]
        omega
      · simp only [labelCharsAux, if_neg hi]
        rw [labelVal_append]
        have hdiv : i / 26 < i := Nat.div_lt_self (by omega) (by omega)
        rw [ih (i / 26 - 1) (by omega) f (by omega)]
        rw [charOfNat_toNat _ (by omega)]
        omega

/-- The dom.rs label assignment is injective on enumeration indices. -/
theorem getLabel_injective : ∀ i j, getLabel i = getLabel j → i = j := by
  intro i j h
  simp only [getLabel] at h
  injection h with h2
  have hi := labelVal_labelCharsAux i (i + 1) (by omega)
  have hj := labelVal_labelCharsAux j (j + 1) (by omega)
  simp only [labelChars] at h2
  have : (i : Int) = (j : Int) := by rw [← hi, ← hj, h2]
  exact_mod_cast this

/-- C6 (amended): in the dom.rs extractor (extract_interactive_elements)
the label assigned to enumeration index i is the i-th base-26 letter
sequence A..Z, AA, AB, ..., the assignment is injective, and hence the
labels of one snapshot are pairwise distinct.  (The claim as stated fails
for the other extraction routine, extract_elements_with_text of client.rs,
whose getNextLetter wraps from Z back to A; see the counterexample.) -/
theorem c6_dom_label_assignment :
    (∀ i j, getLabel i = getLabel j → i = j)
    ∧ getLabel 0 = "A" ∧ getLabel 25 = "Z" ∧ getLabel 26 = "AA"
    ∧ getLabel 27 = "AB"
    ∧ (∀ n, (domLabels n).Nodup) := by
  refine ⟨getLabel_injective, by decide, by decide, by decide, by decide, ?_⟩
  intro n
  exact (List.nodup_range n).map (fun a b => getLabel_injective a b)

/-- C6 witness: the injectivity hypothesis discharged at a concrete index. -/
theorem c6_witness : getLabel 27 = getLabel 27 ∧ (27 : Nat) = 27 :=
  ⟨rfl, c6_dom_label_assignment.1 27 27 rfl⟩

/-- C6 counterexample: the labeling of extract_elements_with_text
(client.rs getNextLetter) repeats on a 27-element snapshot — element 0 and
element 26 both get label A, where the claimed base-26 sequence demands the
distinct label AA at index 26. -/
theorem c6_counterexample :
    (clientLabels 27 65)[0]? = some "A"
    ∧ (clientLabels 27 65)[26]? = some "A"
    ∧ getLabel 26 = "AA"
    ∧ ("A" : String) ≠ "AA" := by
  refine ⟨by decide, by decide, by decide, by decide⟩

/-!
Lemmas about the negotiation loop of prompt_for_label.
-/

/-- If every response of the remaining budget is a reply outside the valid
set, the loop consumes the whole budget and fails with the message naming
the configured attempt count. -/
theorem promptGo_exhaust (ask : Nat → Except String String)
    (valid : String → Bool) (maxA : Nat) :
    ∀ r k,
      (∀ i, i < r → ∃ s, ask (k + i) = Except.ok s ∧ valid (strTrim s) = false) →
      promptGo ask valid maxA k r = (Except.error (failMsg maxA), k + r) := by
  intro r
  induction r with
  | zero => intro k _; rfl
  | succ r ih =>
    intro k h
    obtain ⟨s, hs, hv⟩ := h 0 (by omega)
    rw [Nat.add_zero] at hs
    simp only [promptGo, hs, hv, Bool.false_eq_true, if_false]
    rw [ih (k + 1) ?_]
    · rw [Prod.mk.injEq]
      exact ⟨rfl, by omega⟩
    · intro i hi
      obtain ⟨t, ht, htv⟩ := h (i + 1) (by omega)
      rw [show k + 1 + i = k + (i + 1) by omega]
      exact ⟨t, ht, htv⟩

/-- If the responses before call j are outside the valid set and the
response of call j is inside, the loop returns that trimmed response right
after call j. -/
theorem promptGo_hit (ask : Nat → Except String String)
    (valid : String → Bool) (maxA : Nat) :
    ∀ r k j s, j < r →
      (∀ i, i < j → ∃ t, ask (k + i) = Except.ok t ∧ valid (strTrim t) = false) →
      ask (k + j) = Except.ok s → valid (strTrim s) = true →
      promptGo ask valid maxA k r = (Except.ok (strTrim s), k + j + 1) := by
  intro r
  induction r with
  | zero => intro k j s hj; omega
  | succ r ih =>
    intro k j s hj hpre hok hv
    cases j with
    | zero =>
      rw [Nat.add_zero] at hok
      simp only [promptGo, hok, hv, if_true]
    | succ j' =>
      obtain ⟨t, ht, htv⟩ := hpre 0 (by omega)
      rw [Nat.add_zero] at ht
      simp only [promptGo, ht, htv, Bool.false_eq_true, if_false]
      rw [ih (k + 1) j' s (by omega) ?_ ?_ hv]
      · rw [Prod.mk.injEq]
        exact ⟨rfl, by omega⟩
      · intro i hi
        obtain ⟨u, hu, huv⟩ := hpre (i + 1) (by omega)
        rw [show k + 1 + i = k + (i + 1) by omega]
        exact ⟨u, hu, huv⟩
      · rw [show k + 1 + j' = k + (j' + 1) by omega]
        exact hok

/-- The loop only ever returns a value the validity check accepted. -/
theorem promptGo_ok_valid (ask : Nat → Except String String)
    (valid : String → Bool) (maxA : Nat) :
    ∀ r k l, (promptGo ask valid maxA k r).1 = Except.ok l → valid l = true := by
  intro r
  induction r with
  | zero => intro k l h; simp [promptGo] at h
  | succ r ih =>
    intro k l h
    rcases hask : ask k with e | s
    · simp only [promptGo, hask] at h
      exact Except.noConfusion h
    · simp only [promptGo, hask] at h
      by_cases hv : valid (strTrim s) = true
      · simp only [hv, if_true] at h
        cases h
        exact hv
      · simp only [eq_false_of_ne_true hv, Bool.false_eq_true, if_false] at h
        exact ih (k + 1) l h

/-- The classifier consumes exactly one completion call. -/
theorem infer_action_next (ask : Nat → Except String String) (k : Nat) :
    (infer_action ask k).2 = k + 1 := by
  rcases h : ask k with e | s <;> simp [infer_action, h]

/-- A label returned by prompt_for_label is the label of one of the
candidates supplied to it. -/
theorem prompt_ok_mem (m : Nat) (ask : Nat → Except String String) (k : Nat)
    (elements : List InteractiveElement) (label : String) :
    (prompt_for_label m ask k elements).1 = Except.ok label →
    ∃ el, el ∈ elements ∧ el.label = some label := by
  intro h
  have hv := promptGo_ok_valid ask
    (fun l => (labelKeys elements).contains l) m m k label h
  have hmem : label ∈ labelKeys elements := by simpa using hv
  obtain ⟨el, hel, hlab⟩ := List.mem_filterMap.mp hmem
  exact ⟨el, hel, hlab⟩

/-- C4 (confirmed): with attempt budget m, if every completion response
after trimming lies outside the current label set, the negotiator makes
exactly m completion calls and fails with the error message naming the
attempt count; if the response of the j-th further call (j < m) is the
first valid one, the negotiator returns it right after that call, making
j+1 calls in total and no more. -/
theorem c4_negotiation_budget (m : Nat) (ask : Nat → Except String String)
    (k : Nat) (elements : List InteractiveElement) :
    ((∀ i, i < m → ∃ s, ask (k + i) = Except.ok s ∧
        (labelKeys elements).contains (strTrim s) = false) →
      prompt_for_label m ask k elements = (Except.error (failMsg m), k + m))
    ∧ (∀ j s, j < m →
        (∀ i, i < j → ∃ t, ask (k + i) = Except.ok t ∧
          (labelKeys elements).contains (strTrim t) = false) →
        ask (k + j) = Except.ok s →
        (labelKeys elements).contains (strTrim s) = true →
        prompt_for_label m ask k elements = (Except.ok (strTrim s), k + j + 1)) := by
  constructor
  · intro h
    exact promptGo_exhaust ask _ m m k h
  · intro j s hj hpre hok hv
    exact promptGo_hit ask _ m m k j s hj hpre hok hv

/-- C4 witness: with budget 3 and a service that always answers the
invalid Q the negotiator fails after exactly 3 calls; with a service that
answers the invalid Z and then the valid A it returns A after exactly 2
calls. -/
theorem c4_witness :
    prompt_for_label 3 askConstQ 0 [elementA] = (Except.error (failMsg 3), 3)
    ∧ prompt_for_label 3 askZThenA 0 [elementA] = (Except.ok "A", 2) := by
  constructor
  · exact (c4_negotiation_budget 3 askConstQ 0 [elementA]).1
      (fun i _ => ⟨"Q", rfl, by decide⟩)
  · exact (c4_negotiation_budget 3 askZThenA 0 [elementA]).2 1 "A" (by decide)
      (fun i hi => by
        have : i = 0 := by omega
        subst this
        exact ⟨"Z", rfl, by decide⟩)
      rfl (by decide)

/-- C3 (amended): a label returned by prompt_for_label or by decide_label
is always the label of one of the candidates supplied; and when the
filtered candidate set is empty, decide_label fails before any negotiation
completion call is made — but after the single classification call, so one
completion-service call has already happened (the claim's stronger reading,
no completion call at all, is refuted by the counterexample). -/
theorem c3_label_membership (m : Nat) (ask : Nat → Except String String)
    (elements : List InteractiveElement) :
    (∀ k label, (prompt_for_label m ask k elements).1 = Except.ok label →
      ∃ el, el ∈ elements ∧ el.label = some label)
    ∧ (∀ label, (decide_label m ask elements).1 = Except.ok label →
      ∃ el, el ∈ elements ∧ el.label = some label)
    ∧ (∀ action, (infer_action ask 0).1 = Except.ok action →
      filter_elements elements action = [] →
      decide_label m ask elements = (Except.error (noElemMsg action), 1)) := by
  refine ⟨fun k label h => prompt_ok_mem m ask k elements label h, ?_, ?_⟩
  · intro label h
    rcases hia : infer_action ask 0 with ⟨r, k⟩
    cases r with
    | error e =>
      simp only [decide_label, hia] at h
      exact Except.noConfusion h
    | ok action =>
      simp only [decide_label, hia] at h
      by_cases hemp : (filter_elements elements action).isEmpty = true
      · simp only [hemp, if_true] at h
        exact Except.noConfusion h
      · simp only [hemp, Bool.false_eq_true, if_false] at h
        obtain ⟨el, hel, hlab⟩ :=
          prompt_ok_mem m ask k (filter_elements elements action) label h
        exact ⟨el, (List.mem_filter.mp hel).1, hlab⟩
  · intro action hact hfil
    have hnext := infer_action_next ask 0
    have heq : infer_action ask 0 = (Except.ok action, 1) := by
      rcases hia : infer_action ask 0 with ⟨r, k2⟩
      rw [hia] at hact hnext
      simp only at hact hnext
      rw [hact, hnext]
    simp [decide_label, heq, hfil]

/-- C3 witness: a resolved label is a member of the supplied candidate
set; and a snapshot whose filtered set is empty makes decide_label fail
with exactly one completion call consumed. -/
theorem c3_witness :
    (∃ el, el ∈ [elementA] ∧ el.label = some "A")
    ∧ decide_label 5 askClickThenA [elementT]
        = (Except.error (noElemMsg ElementType.Clickable), 1) :=
  ⟨(c3_label_membership 5 askClickThenA [elementA]).2.1 "A" rfl,
   (c3_label_membership 5 askClickThenA [elementT]).2.2
     ElementType.Clickable rfl rfl⟩

/-- C3 counterexample: the run does not fail before any completion call.
prompt_for_label on an empty candidate set burns its whole budget of 5
completion calls, and decide_label on a snapshot with no clickable
candidate has already consumed the one classification call when it fails —
in both cases more than the zero calls the claim allows. -/
theorem c3_counterexample :
    (prompt_for_label 5 askConstQ 0 []).2 = 5
    ∧ decide_label 5 askClickThenA [elementT]
        = (Except.error (noElemMsg ElementType.Clickable), 1) := by
  exact ⟨rfl, rfl⟩

/-- C5 (amended): infer_action performs exactly one completion round trip
with no retry, and compares case-insensitively: a response whose ASCII
lowercasing is click maps to Clickable, type to Typable, and anything else
is the invalid-action error carrying the lowercased response (the claim's
statement that only the lowercase tokens themselves are accepted is
refuted by the counterexample, where CLICK is accepted). -/
theorem c5_classifier (ask : Nat → Except String String) (k : Nat) :
    (infer_action ask k).2 = k + 1
    ∧ (∀ s, ask k = Except.ok s →
        (infer_action ask k).1 =
          (if strToLower s = "click" then Except.ok ElementType.Clickable
           else if strToLower s = "type" then Except.ok ElementType.Typable
           else Except.error ("Invaild action returned: " ++ strToLower s)))
    ∧ (∀ e, ask k = Except.error e →
        (infer_action ask k).1 = Except.error e) := by
  refine ⟨infer_action_next ask k, ?_, ?_⟩
  · intro s hs
    simp only [infer_action, hs]
  · intro e he
    simp only [infer_action, he]

/-- C5 witness: a service answering the exact lowercase token type is
classified as Typable by one completion call. -/
theorem c5_witness :
    (infer_action (fun _ => Except.ok "type") 0).2 = 1
    ∧ (infer_action (fun _ => Except.ok "type") 0).1
        = Except.ok ElementType.Typable := by
  constructor
  · exact (c5_classifier (fun _ => Except.ok "type") 0).1
  · rw [(c5_classifier (fun _ => Except.ok "type") 0).2.1 "type" rfl]
    rfl

/-- C5 counterexample: the uppercase response CLICK is not an error — the
source lowercases the response before matching, so the classifier accepts
it as Clickable, while the claim demands an InvalidActionError for every
output other than the lowercase tokens. -/
theorem c5_counterexample :
    infer_action (fun _ => Except.ok "CLICK") 0
      = (Except.ok ElementType.Clickable, 1) := by
  rfl

/-!
Lemmas about the job executor.
-/

/-- Running one job on a client lifted to a world enriched with an extra
component leaves that component untouched and otherwise mirrors the base
client run. -/
theorem run_liftClient {W M : Type} (c : BrowserClient W) (j : BrowserJob)
    (w : W) (m : M) :
    j.run (liftClient c) (w, m) = ((j.run c w).1, ((j.run c w).2, m)) := by
  cases j with
  | Navigate url => rfl
  | Click sel => rfl
  | TypeInto sel text => rfl
  | ScrollTo sel => rfl
  | WaitFor sel =>
    rcases hfe : c.find_element sel w with ⟨r, w'⟩
    cases r <;>
      simp [BrowserJob.run, wait_for_element, liftClient, hfe]
  | Screenshot pfx =>
    rcases hcap : c.capture_screenshot pfx w with ⟨r, w'⟩
    cases r <;>
      simp [BrowserJob.run, liftClient, hcap]

/-- C1 (amended): run_all_jobs gives every job exactly one attempt — it
coincides with the spec's retrying batch executor instantiated with a
total attempt budget of 1, so the first failure of a job aborts the batch
at once and surfaces that job's error, with no retry.  (The claimed budget
of 3 total attempts is refuted by the counterexample.) -/
theorem c1_single_attempt {W : Type} (c : BrowserClient W) :
    ∀ (jobs : List BrowserJob) (w : W),
      run_all_jobs c jobs w = run_all_jobs_retry c 1 jobs w := by
  intro jobs
  induction jobs with
  | nil => intro w; rfl
  | cons j rest ih =>
    intro w
    simp only [run_all_jobs, run_all_jobs_retry, run_job_with_retries]
    rcases hr : j.run c w with ⟨r, w'⟩
    cases r <;> simp [ih]

/-- C1 counterexample: a click that fails on its first attempt and would
succeed on a second.  The source executor aborts with the first error
after one attempt, while the claimed executor (3 total attempts per job)
completes the batch successfully. -/
theorem c1_counterexample :
    run_all_jobs flakyClient [BrowserJob.Click "x"] 0
        = (Except.error (BrowserError.OperationError "boom"), 1)
    ∧ run_all_jobs_retry flakyClient 3 [BrowserJob.Click "x"] 0
        = (Except.ok (), 2) :=
  ⟨rfl, rfl⟩

/-- C2 (amended): batch execution appends no MemoryEntry at all.  Over a
world enriched with a memory component that no browser operation touches
(faithful to client.rs, whose BrowserClient carries no memory), the memory
after run_all_jobs is exactly the memory before it, whatever succeeds, and
the batch outcome is that of the plain run.  MemoryEntry::new is never
invoked by the executor. -/
theorem c2_no_memory_recorded {W M : Type} (c : BrowserClient W) :
    ∀ (jobs : List BrowserJob) (w : W) (mem : M),
      (run_all_jobs (liftClient c) jobs (w, mem)).2.2 = mem
      ∧ (run_all_jobs (liftClient c) jobs (w, mem)).1
          = (run_all_jobs c jobs w).1 := by
  intro jobs
  induction jobs with
  | nil => intro w mem; exact ⟨rfl, rfl⟩
  | cons j rest ih =>
    intro w mem
    simp only [run_all_jobs, run_liftClient]
    rcases hr : j.run c w with ⟨r, w'⟩
    cases r <;> simp [ih w' mem]

/-- C2 counterexample: a one-job batch that succeeds records nothing — the
memory after the run equals the untouched initial memory (0 entries), while
the spec's executor, which appends one entry per success through
MemoryEntry::new, ends with exactly 1 entry. -/
theorem c2_counterexample :
    run_all_jobs (liftClient okClient) [BrowserJob.Navigate "https://a"]
        ((), mem50) = (Except.ok (), ((), mem50))
    ∧ (run_all_jobs_spec_mem okClient "t0" [BrowserJob.Navigate "https://a"]
        () mem50).2.history.length = 1 :=
  ⟨rfl, rfl⟩

/-- C10 (confirmed): a WaitFor job can never fail: wait_for_element maps
both the found and the timed-out wait to Ok (true respectively false),
BrowserJob::run discards that boolean into Ok(()), and a batch never aborts
at a WaitFor job — it always continues with the remaining jobs. -/
theorem c10_waitfor_never_fails {W : Type} (c : BrowserClient W)
    (sel : String) (w : W) (rest : List BrowserJob) :
    ((BrowserJob.WaitFor sel).run c w).1 = Except.ok ()
    ∧ (∃ b, wait_for_element c sel w
        = (Except.ok b, ((BrowserJob.WaitFor sel).run c w).2))
    ∧ run_all_jobs c (BrowserJob.WaitFor sel :: rest) w
        = run_all_jobs c rest ((BrowserJob.WaitFor sel).run c w).2 := by
  rcases hfe : c.find_element sel w with ⟨r, w'⟩
  cases r <;>
    simp [BrowserJob.run, wait_for_element, run_all_jobs, hfe]

/-- If the appended history exceeds the capacity, insert-then-evict drops
the oldest entry. -/
theorem insertThenEvict_of_lt {α : Type} (cap : Nat) (hist : List α) (e : α)
    (h : cap < hist.length + 1) :
    insertThenEvict cap hist e = (hist ++ [e]).tail := by
  simp only [insertThenEvict]
  rw [if_pos (by simp only [List.length_append, List.length_cons,
    List.length_nil]; omega)]

/-- If the appended history stays within the capacity, insert-then-evict
keeps everything. -/
theorem insertThenEvict_of_ge {α : Type} (cap : Nat) (hist : List α) (e : α)
    (h : hist.length + 1 ≤ cap) :
    insertThenEvict cap hist e = hist ++ [e] := by
  simp only [insertThenEvict]
  rw [if_neg (by simp only [List.length_append, List.length_cons,
    List.length_nil]; omega)]

/-- C7 (amended): starting from a within-capacity state, the types.rs add
yields exactly the insert-then-evict result — append, then evict the
oldest entry iff the length then exceeds capacity — and the length stays
within capacity, provided the capacity is at least 1 (with capacity 0 and
an empty history the types.rs add panics on Vec::remove(0), refuting the
unrestricted claim; see the counterexample).  The memory.rs record
satisfies the insert-then-evict contract for every capacity and state. -/
theorem c7_add_insert_then_evict :
    (∀ (m : Types.AgentMemory) (e : Types.MemoryEntry),
      1 ≤ m.options.max_entries →
      m.history.length ≤ m.options.max_entries →
      Types.AgentMemory.add m e
          = some { history := insertThenEvict m.options.max_entries m.history e
                   options := m.options }
        ∧ (insertThenEvict m.options.max_entries m.history e).length
            ≤ m.options.max_entries)
    ∧ (∀ (mm : Mem.AgentMemory) (sel act : String) (url : Option String)
        (ts : String),
        (Mem.AgentMemory.record mm sel act url ts).history
          = insertThenEvict mm.options.max_entries mm.history
              { selector := sel, action := act, timestamp := ts
                page_url := url }) := by
  constructor
  · rintro ⟨hist, opts⟩ e hcap hlen
    simp only at hcap hlen
    by_cases hc : opts.max_entries ≤ hist.length
    · have hexact : hist.length = opts.max_entries := by omega
      cases hist with
      | nil => simp at hexact; omega
      | cons h0 t =>
        have hex2 : t.length + 1 = opts.max_entries := by simpa using hexact
        have hlt : opts.max_entries < (h0 :: t).length + 1 := by
          simp only [List.length_cons]
          omega
        constructor
        · simp only [Types.AgentMemory.add, if_pos hc,
            insertThenEvict_of_lt _ _ _ hlt]
          rfl
        · rw [insertThenEvict_of_lt _ _ _ hlt]
          simp only [List.cons_append, List.tail_cons, List.length_append,
            List.length_cons, List.length_nil]
          omega
    · have hge : hist.length + 1 ≤ opts.max_entries := by omega
      constructor
      · simp only [Types.AgentMemory.add, if_neg hc,
            insertThenEvict_of_ge _ _ _ hge]
      · rw [insertThenEvict_of_ge _ _ _ hge]
        simp only [List.length_append, List.length_cons, List.length_nil]
        omega
  · rintro ⟨hist, vis, opts⟩ sel act url ts
    cases hist with
    | nil =>
      simp only [Mem.AgentMemory.record, List.nil_append]
      split
      case isTrue h =>
        rw [insertThenEvict_of_lt _ _ _
          (by simp only [List.length_cons, List.length_nil] at h ⊢; omega)]
        rfl
      case isFalse h =>
        rw [insertThenEvict_of_ge _ _ _
          (by simp only [List.length_cons, List.length_nil] at h ⊢; omega)]
        rfl
    | cons h0 t =>
      simp only [Mem.AgentMemory.record, List.cons_append]
      split
      case isTrue h =>
        rw [insertThenEvict_of_lt _ _ _
          (by simp only [List.length_cons, List.length_append,
            List.length_nil] at h ⊢; omega)]
        simp [List.cons_append]
      case isFalse h =>
        rw [insertThenEvict_of_ge _ _ _
          (by simp only [List.length_cons, List.length_append,
            List.length_nil] at h ⊢; omega)]
        rfl

/-- C7 witness: on a capacity-1 memory the add is exactly insert-then-evict
and stays within capacity. -/
theorem c7_witness :
    Types.AgentMemory.add memOne entry0
        = some { history := insertThenEvict 1 [] entry0
                 options := { max_entries := 1 } }
    ∧ (insertThenEvict 1 ([] : List Types.MemoryEntry) entry0).length ≤ 1 :=
  c7_add_insert_then_evict.1 memOne entry0 (by decide) (by decide)

/-- C7 counterexample: with capacity 0 and an empty history the types.rs
add hits Vec::remove(0) on an empty vector and panics (none in the
embedding), while the claimed insert-then-evict result exists (the empty
history). -/
theorem c7_counterexample :
    Types.AgentMemory.add memZero entry0 = none
    ∧ insertThenEvict 0 ([] : List Types.MemoryEntry) entry0 = [] :=
  ⟨rfl, rfl⟩

/-!
Round-trip lemmas for the serde encoders and decoders.
-/

/-- Option String values survive the encode-decode pair. -/
theorem decodeOptStr_encodeOptStr (o : Option String) :
    decodeOptStr (encodeOptStr o) = some o := by
  cases o <;> rfl

/-- Jobs survive the encode-decode pair. -/
theorem decodeJob_encodeJob (j : BrowserJob) :
    decodeJob (encodeJob j) = some j := by
  cases j <;> rfl

/-- The src/types.rs entries survive the encode-decode pair. -/
theorem types_decodeEntry_encodeEntry (e : Types.MemoryEntry) :
    Types.decodeEntry (Types.encodeEntry e) = some e := by
  obtain ⟨ts, pu, pt, ds, act, sel, job⟩ := e
  cases pu <;> cases pt <;> cases ds <;> cases sel <;> cases job <;> rfl

/-- Entry lists survive the src/types.rs encode-decode pair. -/
theorem types_decodeEntryList_encode (es : List Types.MemoryEntry) :
    Types.decodeEntryList (es.map Types.encodeEntry) = some es := by
  induction es with
  | nil => rfl
  | cons e rest ih =>
    simp only [List.map_cons, Types.decodeEntryList,
      types_decodeEntry_encodeEntry, ih]

/-- Serialized histories decode back to themselves (src/types.rs). -/
theorem types_decodeEntries_encode (es : List Types.MemoryEntry) :
    Types.decodeEntries (Types.encodeEntries es) = some es := by
  simp only [Types.encodeEntries, Types.decodeEntries,
    types_decodeEntryList_encode]

/-- The src/memory.rs entries survive the encode-decode pair. -/
theorem mem_decodeEntry_encodeEntry (e : Mem.MemoryEntry) :
    Mem.decodeEntry (Mem.encodeEntry e) = some e := by
  obtain ⟨sel, act, ts, pu⟩ := e
  cases pu <;> rfl

/-- Entry lists survive the src/memory.rs encode-decode pair. -/
theorem mem_decodeEntryList_encode (es : List Mem.MemoryEntry) :
    Mem.decodeEntryList (es.map Mem.encodeEntry) = some es := by
  induction es with
  | nil => rfl
  | cons e rest ih =>
    simp only [List.map_cons, Mem.decodeEntryList,
      mem_decodeEntry_encodeEntry, ih]

/-- Serialized histories decode back to themselves (src/memory.rs). -/
theorem mem_decodeEntries_encode (es : List Mem.MemoryEntry) :
    Mem.decodeEntries (Mem.encodeEntries es) = some es := by
  simp only [Mem.encodeEntries, Mem.decodeEntries, mem_decodeEntryList_encode]

/-- C8 (confirmed): a well-formed serialized history of any length N
decodes to all N entries in order, with no trimming: types.rs from_json
returns the parsed history verbatim under default options, and memory.rs
from_json returns the parsed history verbatim under the supplied options —
even when N exceeds the capacity.  The bound is only enforced again by a
subsequent add, which then evicts the oldest entry. -/
theorem c8_from_json_no_trim :
    (∀ (j : Json) (es : List Types.MemoryEntry),
      Types.decodeEntries j = some es →
      Types.AgentMemory.from_json j
          = Except.ok { history := es, options := { max_entries := 50 } }
        ∧ (∀ e, 50 < es.length →
            Types.AgentMemory.add
                { history := es, options := { max_entries := 50 } } e
              = some { history := es.tail ++ [e]
                       options := { max_entries := 50 } }))
    ∧ (∀ (j : Json) (ms : List Mem.MemoryEntry) (opts : MemoryOptions),
      Mem.decodeEntries j = some ms →
      ∃ mm, Mem.AgentMemory.from_json j opts = Except.ok mm
        ∧ mm.history = ms) := by
  constructor
  · intro j es hdec
    constructor
    · simp only [Types.AgentMemory.from_json, hdec]
    · intro e hlen
      cases es with
      | nil => simp at hlen
      | cons h0 t =>
        simp only [Types.AgentMemory.add]
        rw [if_pos (by simp only [List.length_cons] at hlen ⊢; omega)]
        rfl
  · intro j ms opts hdec
    simp only [Mem.AgentMemory.from_json, hdec]
    exact ⟨_, rfl, rfl⟩

/-- C8 witness: a 51-entry serialized history loads whole into a
capacity-50 memory, and the next add evicts exactly the oldest entry. -/
theorem c8_witness :
    Types.AgentMemory.from_json (Types.encodeEntries (List.replicate 51 entry0))
        = Except.ok { history := List.replicate 51 entry0
                      options := { max_entries := 50 } }
    ∧ Types.AgentMemory.add
        { history := List.replicate 51 entry0, options := { max_entries := 50 } }
        entry0
        = some { history := (List.replicate 51 entry0).tail ++ [entry0]
                 options := { max_entries := 50 } }
    ∧ ∃ mm, Mem.AgentMemory.from_json
          (Mem.encodeEntries (List.replicate 51 memEntry0)) { max_entries := 7 }
        = Except.ok mm ∧ mm.history = List.replicate 51 memEntry0 := by
  have h1 := c8_from_json_no_trim.1 _ _
    (types_decodeEntries_encode (List.replicate 51 entry0))
  exact ⟨h1.1, h1.2 entry0 (by simp), c8_from_json_no_trim.2 _ _
    { max_entries := 7 } (mem_decodeEntries_encode (List.replicate 51 memEntry0))⟩

/-- C9 (confirmed): serializing a memory's history with to_json and
deserializing with from_json reproduces the identical ordered entry
sequence (the options are reset to the defaults by from_json, but the
entry sequence round-trips losslessly, field value by field value). -/
theorem c9_memory_roundtrip (m : Types.AgentMemory) :
    Types.AgentMemory.from_json (Types.AgentMemory.to_json m)
      = Except.ok { history := m.history, options := { max_entries := 50 } } := by
  simp only [Types.AgentMemory.to_json, Types.AgentMemory.from_json,
    types_decodeEntries_encode]

end InternetUse
